import Mathlib

/-!
Verification development for the tcpchat repository.

The Rust sources are shallowly embedded: byte streams are `List Nat`
(each element a byte value), readers are functions consuming a prefix of a
byte list and returning the decoded value together with the unread rest,
and `std::io` errors are the `IOErrorKind` inductive below.  Rust `String`
values are represented by their UTF-8 byte sequences (`List Nat`), with the
standard-library validation performed by `String::from_utf8` embedded as
the executable `utf8Valid` predicate.  `u16` values are represented by
`Nat` values; the `as u16` cast is `% 65536` and `u16::to_be_bytes` is
`u16Code`.
-/

namespace Tcpchat

/-- The `std::io::ErrorKind` values the embedded code distinguishes.
`fuelExhausted` is a marker used only by the fuel-bounded model of
`Connection::receive`'s loop (shown unreachable in the lemmas below), and
`panicked` marks the `unreachable!` branch of `Connection::receive`. -/
inductive IOErrorKind where
  | invalidData
  | unexpectedEof
  | wouldBlock
  | fuelExhausted
  | panicked
deriving DecidableEq

/-- Embeds `u16::to_be_bytes`: the two big-endian bytes of a `u16` value. -/
def u16Code (v : Nat) : List Nat := [v / 256 % 256, v % 256]

/-- Embeds `<u16 as Codec>::decode`: `read_exact` two bytes, `u16::from_be_bytes`.
Fewer than two bytes available is a short read (`UnexpectedEof`). -/
def u16Decode (bs : List Nat) : Except IOErrorKind (Nat × List Nat) :=
  match bs with
  | b0 :: b1 :: rest => .ok (b0 * 256 + b1, rest)
  | _ => .error .unexpectedEof

/-- Embeds `<u16 as Codec>::coded_size`: `size_of::<u16>()`. -/
def u16CodedSize : Nat := 2

/-- Embeds `<[u8] as Codec>::code`: `(self.len() as u16).code(w)` then
`w.write_all(self)`.  The `as u16` cast truncates modulo `2^16`. -/
def sliceCode (bs : List Nat) : List Nat := u16Code (bs.length % 65536) ++ bs

/-- Embeds `<[u8] as Codec>::decode`: decode a `u16` length, then `read_exact`
that many bytes. -/
def sliceDecode (bs : List Nat) : Except IOErrorKind (List Nat × List Nat) :=
  match u16Decode bs with
  | .error e => .error e
  | .ok (n, rest) =>
    if n ≤ rest.length then .ok (rest.take n, rest.drop n)
    else .error .unexpectedEof

/-- Embeds `<[u8] as Codec>::coded_size`: `(self.len() as u16).coded_size() + self.len()`. -/
def sliceCodedSize (bs : List Nat) : Nat := u16CodedSize + bs.length

/-- Is `b` a UTF-8 continuation byte (`0x80 ..= 0xBF`)? -/
def isCont (b : Nat) : Bool := 0x80 ≤ b && b ≤ 0xBF

/-- UTF-8 validity of a byte sequence, as checked by `String::from_utf8`
(embedding the standard library's validation used by `<str as Codec>::decode`). -/
def utf8Valid : List Nat → Bool
  | [] => true
  | b :: rest =>
    if b ≤ 0x7F then utf8Valid rest
    else if 0xC2 ≤ b && b ≤ 0xDF then
      match rest with
      | b1 :: rest' => isCont b1 && utf8Valid rest'
      | [] => false
    else if b = 0xE0 then
      match rest with
      | b1 :: b2 :: rest' => (0xA0 ≤ b1 && b1 ≤ 0xBF) && isCont b2 && utf8Valid rest'
      | _ => false
    else if (0xE1 ≤ b && b ≤ 0xEC) || b = 0xEE || b = 0xEF then
      match rest with
      | b1 :: b2 :: rest' => isCont b1 && isCont b2 && utf8Valid rest'
      | _ => false
    else if b = 0xED then
      match rest with
      | b1 :: b2 :: rest' => (0x80 ≤ b1 && b1 ≤ 0x9F) && isCont b2 && utf8Valid rest'
      | _ => false
    else if b = 0xF0 then
      match rest with
      | b1 :: b2 :: b3 :: rest' =>
        (0x90 ≤ b1 && b1 ≤ 0xBF) && isCont b2 && isCont b3 && utf8Valid rest'
      | _ => false
    else if 0xF1 ≤ b && b ≤ 0xF3 then
      match rest with
      | b1 :: b2 :: b3 :: rest' => isCont b1 && isCont b2 && isCont b3 && utf8Valid rest'
      | _ => false
    else if b = 0xF4 then
      match rest with
      | b1 :: b2 :: b3 :: rest' =>
        (0x80 ≤ b1 && b1 ≤ 0x8F) && isCont b2 && isCont b3 && utf8Valid rest'
      | _ => false
    else false

/-- Embeds `<str as Codec>::code`: `self.as_bytes().code(w)`. -/
def strCode (s : List Nat) : List Nat := sliceCode s

/-- Embeds `<str as Codec>::decode`: `Slice::decode` then `String::from_utf8`,
mapping a UTF-8 validation failure to an `InvalidData` error. -/
def strDecode (bs : List Nat) : Except IOErrorKind (List Nat × List Nat) :=
  match sliceDecode bs with
  | .error e => .error e
  | .ok (data, rest) =>
    if utf8Valid data then .ok (data, rest) else .error .invalidData

/-- Embeds `<str as Codec>::coded_size`: `self.as_bytes().coded_size()`. -/
def strCodedSize (s : List Nat) : Nat := sliceCodedSize s

/-- Embeds `ClientCommand` from `src/common/src/commands.rs`; string fields are
their UTF-8 byte sequences. -/
inductive ClientCommand where
  | padding
  | connect (name : List Nat)
  | message (message : List Nat)
deriving DecidableEq

/-- Embeds `<ClientCommand as Codec>::code`. -/
def ClientCommand.code : ClientCommand → List Nat
  | .padding => u16Code 0
  | .connect name => u16Code 1 ++ strCode name
  | .message msg => u16Code 2 ++ strCode msg

/-- Embeds `<ClientCommand as Codec>::decode`. -/
def ClientCommand.decode (bs : List Nat) : Except IOErrorKind (ClientCommand × List Nat) :=
  match u16Decode bs with
  | .error e => .error e
  | .ok (id, rest) =>
    if id = 0 then .ok (.padding, rest)
    else if id = 1 then
      match strDecode rest with
      | .ok (name, rest') => .ok (.connect name, rest')
      | .error e => .error e
    else if id = 2 then
      match strDecode rest with
      | .ok (msg, rest') => .ok (.message msg, rest')
      | .error e => .error e
    else .error .invalidData

/-- Embeds `<ClientCommand as Codec>::coded_size`. -/
def ClientCommand.coded_size : ClientCommand → Nat
  | .padding => u16CodedSize
  | .connect name => u16CodedSize + strCodedSize name
  | .message msg => u16CodedSize + strCodedSize msg

/-- Embeds `ServerCommand` from `src/common/src/commands.rs`. -/
inductive ServerCommand where
  | padding
  | addUser (user_id : Nat) (name : List Nat)
  | removeUser (user_id : Nat)
  | message (msg_id : Nat) (user_id : Nat) (message : List Nat)
deriving DecidableEq

/-- Embeds `<ServerCommand as Codec>::code`. -/
def ServerCommand.code : ServerCommand → List Nat
  | .padding => u16Code 0
  | .addUser user_id name => u16Code 1 ++ u16Code user_id ++ strCode name
  | .removeUser user_id => u16Code 2 ++ u16Code user_id
  | .message msg_id user_id msg =>
    u16Code 3 ++ u16Code msg_id ++ u16Code user_id ++ strCode msg

/-- Embeds `<ServerCommand as Codec>::decode`. -/
def ServerCommand.decode (bs : List Nat) : Except IOErrorKind (ServerCommand × List Nat) :=
  match u16Decode bs with
  | .error e => .error e
  | .ok (id, rest) =>
    if id = 0 then .ok (.padding, rest)
    else if id = 1 then
      match u16Decode rest with
      | .error e => .error e
      | .ok (user_id, r1) =>
        match strDecode r1 with
        | .ok (name, r2) => .ok (.addUser user_id name, r2)
        | .error e => .error e
    else if id = 2 then
      match u16Decode rest with
      | .error e => .error e
      | .ok (user_id, r1) => .ok (.removeUser user_id, r1)
    else if id = 3 then
      match u16Decode rest with
      | .error e => .error e
      | .ok (msg_id, r1) =>
        match u16Decode r1 with
        | .error e => .error e
        | .ok (user_id, r2) =>
          match strDecode r2 with
          | .ok (msg, r3) => .ok (.message msg_id user_id msg, r3)
          | .error e => .error e
    else .error .invalidData

/-- Embeds `<ServerCommand as Codec>::coded_size`. -/
def ServerCommand.coded_size : ServerCommand → Nat
  | .padding => u16CodedSize
  | .addUser _user_id name => u16CodedSize + u16CodedSize + strCodedSize name
  | .removeUser _user_id => u16CodedSize + u16CodedSize
  | .message _ _ msg => u16CodedSize + u16CodedSize + u16CodedSize + strCodedSize msg

/-- Well-formedness of an embedded Rust `String` value: its bytes are valid
UTF-8 (a `String` type invariant) and fit the 2-byte length prefix. -/
def strWf (s : List Nat) : Bool := utf8Valid s && s.length ≤ 65535

/-- Well-formedness of an embedded `u16` value. -/
def u16Wf (n : Nat) : Bool := n < 65536

/-- Value invariants carried by the Rust types (`String`, `u16`). -/
def ClientCommand.wf : ClientCommand → Bool
  | .padding => true
  | .connect name => strWf name
  | .message msg => strWf msg

/-- Value invariants carried by the Rust types (`String`, `u16`). -/
def ServerCommand.wf : ServerCommand → Bool
  | .padding => true
  | .addUser user_id name => u16Wf user_id && strWf name
  | .removeUser user_id => u16Wf user_id
  | .message msg_id user_id msg =>
    u16Wf msg_id && u16Wf user_id && strWf msg

/-! ### Codec round-trip lemmas -/

theorem u16_roundtrip (v : Nat) (h : v < 65536) (t : List Nat) :
    u16Decode (u16Code v ++ t) = .ok (v, t) := by
  simp only [u16Code, u16Decode, List.cons_append, List.nil_append]
  congr 2
  omega

theorem slice_roundtrip (bs : List Nat) (h : bs.length ≤ 65535) (t : List Nat) :
    sliceDecode (sliceCode bs ++ t) = .ok (bs, t) := by
  have hlt : bs.length % 65536 = bs.length := Nat.mod_eq_of_lt (by omega)
  simp only [sliceCode, List.append_assoc]
  rw [sliceDecode, u16_roundtrip _ (by omega), hlt]
  simp [List.take_left, List.drop_left]

theorem str_roundtrip (bs : List Nat) (h : strWf bs = true) (t : List Nat) :
    strDecode (strCode bs ++ t) = .ok (bs, t) := by
  have h1 : utf8Valid bs = true := by
    simp only [strWf, Bool.and_eq_true] at h; exact h.1
  have h2 : bs.length ≤ 65535 := by
    simp only [strWf, Bool.and_eq_true, decide_eq_true_eq] at h; exact h.2
  rw [strDecode, strCode, slice_roundtrip bs h2 t]
  simp [h1]

/-- Case-split decidable equality for `Except`, needed to evaluate the
embedded decoders in witnesses. -/
instance {e a : Type} [DecidableEq e] [DecidableEq a] : DecidableEq (Except e a) := fun x y =>
  match x, y with
  | .ok v, .ok w =>
    if h : v = w then isTrue (congrArg Except.ok h)
    else isFalse (fun hh => h (Except.ok.inj hh))
  | .error v, .error w =>
    if h : v = w then isTrue (congrArg Except.error h)
    else isFalse (fun hh => h (Except.error.inj hh))
  | .ok _, .error _ => isFalse (fun hh => Except.noConfusion hh)
  | .error _, .ok _ => isFalse (fun hh => Except.noConfusion hh)

theorem clientCommand_roundtrip_aux (c : ClientCommand) (t : List Nat)
    (hc : c.wf = true) : ClientCommand.decode (c.code ++ t) = .ok (c, t) := by
  cases c with
  | padding =>
    simp [ClientCommand.code, ClientCommand.decode, u16_roundtrip 0 (by omega)]
  | connect name =>
    simp [ClientCommand.code, ClientCommand.decode, List.append_assoc,
      u16_roundtrip 1 (by omega), str_roundtrip name hc]
  | message msg =>
    simp [ClientCommand.code, ClientCommand.decode, List.append_assoc,
      u16_roundtrip 2 (by omega), str_roundtrip msg hc]

theorem serverCommand_roundtrip_aux (s : ServerCommand) (t : List Nat)
    (hs : s.wf = true) : ServerCommand.decode (s.code ++ t) = .ok (s, t) := by
  cases s with
  | padding =>
    simp [ServerCommand.code, ServerCommand.decode, u16_roundtrip 0 (by omega)]
  | addUser user_id name =>
    simp only [ServerCommand.wf, Bool.and_eq_true, u16Wf, decide_eq_true_eq] at hs
    simp [ServerCommand.code, ServerCommand.decode, List.append_assoc,
      u16_roundtrip 1 (by omega), u16_roundtrip user_id hs.1,
      str_roundtrip name hs.2]
  | removeUser user_id =>
    simp only [ServerCommand.wf, u16Wf, decide_eq_true_eq] at hs
    simp [ServerCommand.code, ServerCommand.decode, List.append_assoc,
      u16_roundtrip 2 (by omega), u16_roundtrip user_id hs]
  | message msg_id user_id msg =>
    simp only [ServerCommand.wf, Bool.and_eq_true, u16Wf, decide_eq_true_eq] at hs
    simp [ServerCommand.code, ServerCommand.decode, List.append_assoc,
      u16_roundtrip 3 (by omega), u16_roundtrip msg_id hs.1.1,
      u16_roundtrip user_id hs.1.2, str_roundtrip msg hs.2]

/-- C1: for every `ClientCommand` and every `ServerCommand` whose string
fields are valid UTF-8 of at most 65535 bytes (and whose `u16` fields are
in range, as the Rust types guarantee), decoding the bytes produced by
encoding the value yields exactly that value, consuming all bytes. -/
theorem decode_code_roundtrip :
    (∀ c : ClientCommand, c.wf = true → ClientCommand.decode c.code = .ok (c, [])) ∧
    (∀ s : ServerCommand, s.wf = true → ServerCommand.decode s.code = .ok (s, [])) := by
  constructor
  · intro c hc
    have h := clientCommand_roundtrip_aux c [] hc
    rwa [List.append_nil] at h
  · intro s hs
    have h := serverCommand_roundtrip_aux s [] hs
    rwa [List.append_nil] at h

/-- C1 witness: concrete round trips, including a multi-byte UTF-8 name,
an empty string, and in-range identifiers. -/
theorem decode_code_roundtrip_witness :
    ClientCommand.decode (ClientCommand.code (.connect [0xC3, 0xA9])) = .ok (.connect [0xC3, 0xA9], []) ∧
    ClientCommand.decode (ClientCommand.code .padding) = .ok (.padding, []) ∧
    ServerCommand.decode (ServerCommand.code (.message 7 3 [0x68, 0x69])) = .ok (.message 7 3 [0x68, 0x69], []) ∧
    ServerCommand.decode (ServerCommand.code (.addUser 1 [])) = .ok (.addUser 1 [], []) :=
  ⟨decode_code_roundtrip.1 _ (by decide), decode_code_roundtrip.1 _ (by decide),
   decode_code_roundtrip.2 _ (by decide), decode_code_roundtrip.2 _ (by decide)⟩

/-- C2: `coded_size` returns exactly the number of bytes that `code`
writes, for every `ClientCommand` and `ServerCommand` (unconditionally,
which in particular covers all values with string fields of at most
65535 bytes). -/
theorem coded_size_eq_code_length :
    (∀ c : ClientCommand, c.coded_size = c.code.length) ∧
    (∀ s : ServerCommand, s.coded_size = s.code.length) := by
  constructor
  · intro c
    cases c <;>
      simp [ClientCommand.coded_size, ClientCommand.code, u16Code, u16CodedSize,
        strCode, strCodedSize, sliceCode, sliceCodedSize] <;> omega
  · intro s
    cases s <;>
      simp [ServerCommand.coded_size, ServerCommand.code, u16Code, u16CodedSize,
        strCode, strCodedSize, sliceCode, sliceCodedSize] <;> omega

/-- C5: decoding fails with an `InvalidData` error whenever the 2-byte
discriminant tag is outside the recognized set (0..2 for `ClientCommand`,
0..3 for `ServerCommand`) or a string field's bytes are not valid UTF-8;
the embedded decoders are total functions into `Except`, so no input
panics. -/
theorem decode_invalid_tag_or_utf8_invalidData :
    (∀ bs tag rest, u16Decode bs = .ok (tag, rest) → tag ≠ 0 → tag ≠ 1 → tag ≠ 2 →
      ClientCommand.decode bs = .error .invalidData) ∧
    (∀ bs tag rest, u16Decode bs = .ok (tag, rest) → tag ≠ 0 → tag ≠ 1 → tag ≠ 2 → tag ≠ 3 →
      ServerCommand.decode bs = .error .invalidData) ∧
    (∀ bs tag rest data rest', u16Decode bs = .ok (tag, rest) → (tag = 1 ∨ tag = 2) →
      sliceDecode rest = .ok (data, rest') → utf8Valid data = false →
      ClientCommand.decode bs = .error .invalidData) ∧
    (∀ bs rest uid r1 data r2, u16Decode bs = .ok (1, rest) →
      u16Decode rest = .ok (uid, r1) → sliceDecode r1 = .ok (data, r2) →
      utf8Valid data = false →
      ServerCommand.decode bs = .error .invalidData) ∧
    (∀ bs rest mid r1 uid r2 data r3, u16Decode bs = .ok (3, rest) →
      u16Decode rest = .ok (mid, r1) → u16Decode r1 = .ok (uid, r2) →
      sliceDecode r2 = .ok (data, r3) → utf8Valid data = false →
      ServerCommand.decode bs = .error .invalidData) := by
  refine ⟨?_, ?_, ?_, ?_, ?_⟩
  · intro bs tag rest h h0 h1 h2
    rw [ClientCommand.decode, h]
    simp [h0, h1, h2]
  · intro bs tag rest h h0 h1 h2 h3
    rw [ServerCommand.decode, h]
    simp [h0, h1, h2, h3]
  · intro bs tag rest data rest' h htag hslice hutf
    rw [ClientCommand.decode, h]
    rcases htag with h1 | h2
    · subst h1
      simp [strDecode, hslice, hutf]
    · subst h2
      simp [strDecode, hslice, hutf]
  · intro bs rest uid r1 data r2 h hu hslice hutf
    rw [ServerCommand.decode, h]
    simp [hu, strDecode, hslice, hutf]
  · intro bs rest mid r1 uid r2 data r3 h hm hu hslice hutf
    rw [ServerCommand.decode, h]
    simp [hm, hu, strDecode, hslice, hutf]

/-- C5 witness: an unknown tag and an invalid UTF-8 string each decode to
an `InvalidData` error, on concrete inputs. -/
theorem decode_invalid_tag_or_utf8_invalidData_witness :
    ClientCommand.decode [0, 5] = .error .invalidData ∧
    ServerCommand.decode [0, 9, 1, 2] = .error .invalidData ∧
    ClientCommand.decode [0, 1, 0, 1, 0xFF] = .error .invalidData ∧
    ServerCommand.decode [0, 1, 0, 2, 0, 1, 0xFF] = .error .invalidData ∧
    ServerCommand.decode [0, 3, 0, 1, 0, 2, 0, 1, 0x80] = .error .invalidData :=
  ⟨decode_invalid_tag_or_utf8_invalidData.1 [0, 5] 5 [] (by decide)
      (by decide) (by decide) (by decide),
   decode_invalid_tag_or_utf8_invalidData.2.1 [0, 9, 1, 2] 9 [1, 2] (by decide)
      (by decide) (by decide) (by decide) (by decide),
   decode_invalid_tag_or_utf8_invalidData.2.2.1 [0, 1, 0, 1, 0xFF] 1 [0, 1, 0xFF]
      [0xFF] [] (by decide) (Or.inl rfl) (by decide) (by decide),
   decode_invalid_tag_or_utf8_invalidData.2.2.2.1 [0, 1, 0, 2, 0, 1, 0xFF]
      [0, 2, 0, 1, 0xFF] 2 [0, 1, 0xFF] [0xFF] [] (by decide) (by decide)
      (by decide) (by decide),
   decode_invalid_tag_or_utf8_invalidData.2.2.2.2 [0, 3, 0, 1, 0, 2, 0, 1, 0x80]
      [0, 1, 0, 2, 0, 1, 0x80] 1 [0, 2, 0, 1, 0x80] 2 [0, 1, 0x80] [0x80] []
      (by decide) (by decide) (by decide) (by decide) (by decide)⟩

/-!
### The Connection framing state machine (`src/common/src/connection.rs`)

`Connection` is embedded as the `Conn` structure: the read buffer's
contents (`Cursor::get_ref`), the cursor position, `read_buffer_actual`,
and the `ReadMode`.  The non-blocking socket is modelled by the list of
bytes currently available to `TcpStream::read`: a read into a non-empty
slice takes `min space avail.length` bytes when some are available and
fails with `WouldBlock` when none are (the peer has not closed the
stream in the scenarios the claims describe, so a 0-byte socket read —
end of stream — does not occur; a read into an *empty* slice returns
`Ok(0)`, which `fill_buf` maps to `UnexpectedEof`).  The decoder for the
`Received` type parameter is an explicit function argument `dec`, keeping
the embedding generic exactly as `Connection<Sent, Received>` is.
-/

/-- Embeds `ReadMode` from `connection.rs`. -/
inductive ReadMode where
  | size
  | data
  | parse
deriving DecidableEq

/-- The read-path state of a `Connection`. -/
structure Conn where
  buf : List Nat
  pos : Nat
  actual : Nat
  mode : ReadMode
deriving DecidableEq

/-- Embeds `Connection::new`: empty buffer, `read_buffer_actual = 0`, `ReadMode::Parse`. -/
def Conn.new : Conn := ⟨[], 0, 0, .parse⟩

/-- Embeds `Connection::resize_buf`: `Vec::resize(size, 0)` (keeping any prefix,
zero-filling any extension), cursor position and `read_buffer_actual` to 0. -/
def Conn.resize_buf (c : Conn) (size : Nat) : Conn :=
  { c with buf := c.buf.take size ++ List.replicate (size - c.buf.length) 0,
           pos := 0, actual := 0 }

/-- Result of `Connection::fill_buf`: the updated connection, the bytes
still available on the socket, and the error (`none` means the buffer
is now full). -/
structure FillResult where
  conn : Conn
  avail : List Nat
  err : Option IOErrorKind
deriving DecidableEq

/-- Embeds `Connection::fill_buf`: read from the socket into
`read_buffer[actual..]`; a 0-byte read is `UnexpectedEof`, an incomplete
buffer after a successful read is `WouldBlock` (progress is kept). -/
def Conn.fill_buf (c : Conn) (avail : List Nat) : FillResult :=
  let space := c.buf.length - c.actual
  if space = 0 then ⟨c, avail, some .unexpectedEof⟩
  else if avail.length = 0 then ⟨c, avail, some .wouldBlock⟩
  else
    let n := min space avail.length
    let c' : Conn := { c with
      buf := c.buf.take c.actual ++ avail.take n ++ c.buf.drop (c.actual + n),
      actual := c.actual + n }
    if c'.actual = c'.buf.length then ⟨c', avail.drop n, none⟩
    else ⟨c', avail.drop n, some .wouldBlock⟩

/-- One pass of the `loop` in `Connection::receive`, fuel-bounded.  The
loop's control flow visits at most `Parse → Size → Data → Parse` within
one call (every other path returns or errors), so any fuel ≥ 5 computes
the exact behaviour of the Rust loop; `receive` below uses fuel 6.
On a decode error in the `Parse` arm the Rust cursor position is left
wherever the failed decode stopped; callers treat any such error as
fatal and drop the connection, and the model returns the connection
unchanged in that case. -/
def receiveGo {α : Type} (dec : List Nat → Except IOErrorKind (α × List Nat)) :
    Nat → Conn → List Nat → Except IOErrorKind α × Conn × List Nat
  | 0, c, avail => (.error .fuelExhausted, c, avail)
  | fuel + 1, c, avail =>
    match c.mode with
    | .size =>
      match c.fill_buf avail with
      | ⟨c', avail', some e⟩ => (.error e, c', avail')
      | ⟨c', avail', none⟩ =>
        match u16Decode (c'.buf.drop c'.pos) with
        | .error _ => (.error .panicked, c', avail')
        | .ok (data_size, _) =>
          receiveGo dec fuel { c'.resize_buf data_size with mode := .data } avail'
    | .data =>
      match c.fill_buf avail with
      | ⟨c', avail', some e⟩ => (.error e, c', avail')
      | ⟨c', avail', none⟩ => receiveGo dec fuel { c' with mode := .parse } avail'
    | .parse =>
      if c.pos < c.buf.length then
        match dec (c.buf.drop c.pos) with
        | .ok (m, rest) => (.ok m, { c with pos := c.buf.length - rest.length }, avail)
        | .error e => (.error e, c, avail)
      else
        receiveGo dec fuel { c.resize_buf 2 with mode := .size } avail

/-- Embeds `Connection::receive`, given the bytes currently available on the
socket.  Returns the call's result, the connection afterwards, and the
socket bytes left unconsumed. -/
def receive {α : Type} (dec : List Nat → Except IOErrorKind (α × List Nat))
    (c : Conn) (avail : List Nat) : Except IOErrorKind α × Conn × List Nat :=
  receiveGo dec 6 c avail

/-- Drive a connection: for each chunk of newly arrived socket bytes,
call `receive` once (unconsumed bytes stay on the socket for the next
call), collecting every call's result. -/
def deliverChunks {α : Type} (dec : List Nat → Except IOErrorKind (α × List Nat)) :
    Conn → List Nat → List (List Nat) →
    List (Except IOErrorKind α) × Conn × List Nat
  | c, carry, [] => ([], c, carry)
  | c, carry, chunk :: rest =>
    let r := receive dec c (carry ++ chunk)
    let rs := deliverChunks dec r.2.1 r.2.2 rest
    (r.1 :: rs.1, rs.2.1, rs.2.2)

/-- The successfully decoded messages among a list of receive results. -/
def oks {α : Type} (rs : List (Except IOErrorKind α)) : List α :=
  rs.filterMap fun r => match r with | .ok x => some x | .error _ => none

/-!
Canonical connection states reached while one frame `L ++ p` (with `L`
the 2-byte length prefix of the payload `p`) arrives byte-group by
byte-group.  `sizeState L d` is the state after `d < 2` prefix bytes,
`dataState p L k` the state after the full prefix plus `k` payload
bytes (the buffer keeps the stale resized prefix bytes beyond position
`k`, exactly as `Vec::resize` leaves them), `doneState` the state just
after the decoded message was returned, and `postState` the state after
the subsequent call reset the buffer for the next length prefix.
-/

/-- State in `ReadMode::Size` with `d` of the 2 prefix bytes received. -/
def sizeState (L : List Nat) (d : Nat) : Conn :=
  ⟨L.take d ++ List.replicate (2 - d) 0, 0, d, .size⟩

/-- Buffer contents right after `resize_buf(data_size)`: the stale prefix
bytes survive `Vec::resize`, zero-padded up to the payload length. -/
def dataBuf0 (L : List Nat) (len : Nat) : List Nat :=
  L.take len ++ List.replicate (len - 2) 0

/-- State in `ReadMode::Data` with `k` payload bytes received. -/
def dataState (p L : List Nat) (k : Nat) : Conn :=
  ⟨p.take k ++ (dataBuf0 L p.length).drop k, 0, k, .data⟩

/-- The state between byte `d` of the frame `u16Code p.length ++ p`. -/
def midState (p : List Nat) (d : Nat) : Conn :=
  if d < 2 then sizeState (u16Code p.length) d
  else dataState p (u16Code p.length) (d - 2)

/-- State just after returning the decoded message of payload `p`. -/
def doneState (p : List Nat) : Conn := ⟨p, p.length, p.length, .parse⟩

/-- State after the post-message call resets the buffer for a new prefix. -/
def postState (p : List Nat) : Conn :=
  ⟨p.take 2 ++ List.replicate (2 - p.length) 0, 0, 0, .size⟩

theorem u16_roundtrip' (v : Nat) (h : v < 65536) :
    u16Decode (u16Code v) = .ok (v, []) := by
  have h2 := u16_roundtrip v h []
  rwa [List.append_nil] at h2

/-- Behaviour of `fill_buf` on a buffer whose first `f.length` bytes are
already filled and whose remaining `r` bytes are still awaited. -/
theorem fill_buf_spec (c : Conn) (f r b : List Nat)
    (hbuf : c.buf = f ++ r) (hact : c.actual = f.length) (hr : r ≠ []) :
    c.fill_buf b =
      if b.length = 0 then ⟨c, b, some .wouldBlock⟩
      else if b.length < r.length then
        ⟨{ c with buf := f ++ (b ++ r.drop b.length), actual := f.length + b.length },
          [], some .wouldBlock⟩
      else
        ⟨{ c with buf := f ++ b.take r.length, actual := f.length + r.length },
          b.drop r.length, none⟩ := by
  have hrlen : 0 < r.length := List.length_pos.mpr hr
  obtain ⟨buf, pos, actual, mode⟩ := c
  dsimp only at hbuf hact ⊢
  subst hbuf hact
  rw [Conn.fill_buf]
  dsimp only
  rw [List.length_append, show f.length + r.length - f.length = r.length by omega,
    if_neg (by omega : ¬r.length = 0), List.take_left, List.drop_append]
  by_cases hb0 : b.length = 0
  · rw [if_pos hb0, if_pos hb0]
  · rw [if_neg hb0, if_neg hb0]
    by_cases hlt : b.length < r.length
    · rw [if_pos hlt]
      have hmin : min r.length b.length = b.length := by omega
      rw [hmin, List.take_length,
        if_neg (by simp only [List.length_append, List.length_take, List.length_drop]; omega),
        List.append_assoc, List.drop_length]
    · rw [if_neg hlt]
      have hmin : min r.length b.length = r.length := by omega
      have hdr : r.drop r.length = [] := List.drop_length r
      rw [hmin, hdr, List.append_nil,
        if_pos (by simp only [List.length_append, List.length_take]; omega)]

theorem receiveGo_size {α : Type} (dec : List Nat → Except IOErrorKind (α × List Nat))
    (f : Nat) (c : Conn) (avail : List Nat) (hmode : c.mode = .size) :
    receiveGo dec (f + 1) c avail =
      match c.fill_buf avail with
      | ⟨c', avail', some e⟩ => (.error e, c', avail')
      | ⟨c', avail', none⟩ =>
        match u16Decode (c'.buf.drop c'.pos) with
        | .error _ => (.error .panicked, c', avail')
        | .ok (data_size, _) =>
          receiveGo dec f { c'.resize_buf data_size with mode := .data } avail' := by
  obtain ⟨buf, pos, actual, mode⟩ := c
  dsimp only at hmode
  subst hmode
  rfl

theorem receiveGo_data {α : Type} (dec : List Nat → Except IOErrorKind (α × List Nat))
    (f : Nat) (c : Conn) (avail : List Nat) (hmode : c.mode = .data) :
    receiveGo dec (f + 1) c avail =
      match c.fill_buf avail with
      | ⟨c', avail', some e⟩ => (.error e, c', avail')
      | ⟨c', avail', none⟩ => receiveGo dec f { c' with mode := .parse } avail' := by
  obtain ⟨buf, pos, actual, mode⟩ := c
  dsimp only at hmode
  subst hmode
  rfl

theorem receiveGo_parse {α : Type} (dec : List Nat → Except IOErrorKind (α × List Nat))
    (f : Nat) (c : Conn) (avail : List Nat) (hmode : c.mode = .parse) :
    receiveGo dec (f + 1) c avail =
      if c.pos < c.buf.length then
        match dec (c.buf.drop c.pos) with
        | .ok (m, rest) => (.ok m, { c with pos := c.buf.length - rest.length }, avail)
        | .error e => (.error e, c, avail)
      else receiveGo dec f { c.resize_buf 2 with mode := .size } avail := by
  obtain ⟨buf, pos, actual, mode⟩ := c
  dsimp only at hmode
  subst hmode
  rfl

/-- One `receive` call in `ReadMode::Data` with `k` of the payload `p`
already buffered and the next `b` payload bytes available: either the
frame is still incomplete (progress recorded, `WouldBlock`), or the
payload completes and the decoded message is returned. -/
theorem receive_data_step {α : Type} (dec : List Nat → Except IOErrorKind (α × List Nat))
    (p L : List Nat) (m : α) (f k j : Nat) (b : List Nat)
    (hL : L.length = 2) (hk : k < p.length)
    (hb : b = (p.drop k).take j) (hdec : dec p = .ok (m, [])) :
    receiveGo dec (f + 2) (dataState p L k) b =
      if k + b.length < p.length
      then (.error .wouldBlock, dataState p L (k + b.length), [])
      else (.ok m, doneState p, []) := by
  have hbuf0 : (dataBuf0 L p.length).length = p.length := by
    simp only [dataBuf0, List.length_append, List.length_take, List.length_replicate, hL]
    omega
  have hrlen : ((dataBuf0 L p.length).drop k).length = p.length - k := by
    rw [List.length_drop, hbuf0]
  have hrne : (dataBuf0 L p.length).drop k ≠ [] := by
    rw [← List.length_pos, hrlen]; omega
  have htklen : (p.take k).length = k := by
    rw [List.length_take]; omega
  have hblen : b.length = min j (p.length - k) := by
    rw [hb, List.length_take, List.length_drop]
  have hfill := fill_buf_spec (dataState p L k) (p.take k) ((dataBuf0 L p.length).drop k) b
    rfl (by rw [htklen]; rfl) hrne
  rw [show f + 2 = (f + 1) + 1 from rfl, receiveGo_data dec (f + 1) _ _ rfl, hfill]
  by_cases hcase : k + b.length < p.length
  · rw [if_pos hcase]
    by_cases hb0 : b.length = 0
    · rw [if_pos hb0]
      have hbnil : b = [] := List.length_eq_zero.mp hb0
      subst hbnil
      simp
    · rw [if_neg hb0, if_pos (by omega)]
      have hj : j = b.length := by omega
      have hbp : (p.drop k).take b.length = b := by
        conv_rhs => rw [hb, hj]
      dsimp only [dataState]
      have hstate :
          p.take k ++ (b ++ ((dataBuf0 L p.length).drop k).drop b.length) =
          p.take (k + b.length) ++ (dataBuf0 L p.length).drop (k + b.length) := by
        rw [List.take_add, hbp, List.drop_drop, List.append_assoc]
      rw [hstate, htklen]
  · rw [if_neg hcase]
    have hble : b.length ≤ p.length - k := by omega
    have hbfull : b.length = p.length - k := by omega
    rw [if_neg (by omega), if_neg (by omega)]
    have hbeq : b = p.drop k := by
      rw [hb, List.take_of_length_le]
      rw [List.length_drop]
      omega
    have htkb : b.take ((dataBuf0 L p.length).drop k).length = b := by
      rw [hrlen, ← hbfull, List.take_length]
    have hdb : b.drop ((dataBuf0 L p.length).drop k).length = [] := by
      rw [hrlen, ← hbfull, List.drop_length]
    dsimp only [dataState]
    rw [htkb, hdb, hbeq, List.take_append_drop]
    rw [receiveGo_parse dec f _ _ rfl]
    rw [if_pos (by dsimp only; omega)]
    dsimp only
    rw [List.drop_zero, hdec]
    dsimp only [doneState]
    have hact : (p.take k).length + ((dataBuf0 L p.length).drop k).length = p.length := by
      rw [htklen, hrlen]; omega
    have hpos : p.length - ([] : List Nat).length = p.length := by simp
    rw [hact, hpos]

/-- One `receive` call in `ReadMode::Size` with `d < 2` prefix bytes of
the frame `u16Code p.length ++ p` buffered and the next `a` frame bytes
available: either the frame is still incomplete (`WouldBlock`, progress
recorded — possibly crossing into `ReadMode::Data`), or the whole frame
completes and the decoded message is returned. -/
theorem receive_size_step {α : Type} (dec : List Nat → Except IOErrorKind (α × List Nat))
    (p : List Nat) (m : α) (f d k : Nat) (a : List Nat)
    (hp : 0 < p.length) (hlen : p.length < 65536) (hd : d < 2)
    (ha : a = ((u16Code p.length ++ p).drop d).take k)
    (hdec : dec p = .ok (m, [])) :
    receiveGo dec (f + 3) (sizeState (u16Code p.length) d) a =
      if d + a.length < 2 + p.length
      then (.error .wouldBlock, midState p (d + a.length), [])
      else (.ok m, doneState p, []) := by
  set L := u16Code p.length with hLdef
  have hL : L.length = 2 := by rw [hLdef, u16Code]; rfl
  have hdropd : (L ++ p).drop d = L.drop d ++ p :=
    List.drop_append_of_le_length (by omega)
  have hLd : (L.drop d).length = 2 - d := by rw [List.length_drop, hL]
  have ha' : a = (L.drop d ++ p).take k := by rw [ha, hdropd]
  have halen : a.length = min k (2 - d + p.length) := by
    rw [ha', List.length_take, List.length_append, hLd]
  have htkd : (L.take d).length = d := by rw [List.length_take, hL]; omega
  have hrlen : (List.replicate (2 - d) 0 : List Nat).length = 2 - d :=
    List.length_replicate ..
  have hrne : (List.replicate (2 - d) 0 : List Nat) ≠ [] := by
    rw [← List.length_pos, hrlen]; omega
  have hfill := fill_buf_spec (sizeState L d) (L.take d) (List.replicate (2 - d) 0) a
    rfl (by rw [htkd]; rfl) hrne
  rw [show f + 3 = (f + 2) + 1 from rfl, receiveGo_size dec (f + 2) _ _ rfl, hfill]
  by_cases ha0 : a.length = 0
  · rw [if_pos ha0]
    have hanil : a = [] := List.length_eq_zero.mp ha0
    subst hanil
    rw [if_pos (by simp only [List.length_nil]; omega)]
    simp [midState, hd, ← hLdef]
  · rw [if_neg ha0, hrlen]
    by_cases hlt : a.length < 2 - d
    · rw [if_pos hlt]
      have hka : k = a.length := by omega
      have hadk : a = (L.drop d).take k := by
        rw [ha', List.take_append_of_le_length (by omega : k ≤ (L.drop d).length)]
      have hap : (L.drop d).take a.length = a := by rw [← hka, hadk]
      rw [if_pos (by omega), midState, if_pos (by omega)]
      dsimp only [sizeState]
      have hstate :
          L.take d ++ (a ++ (List.replicate (2 - d) 0).drop a.length) =
          L.take (d + a.length) ++ List.replicate (2 - (d + a.length)) 0 := by
        rw [List.take_add, hap, List.drop_replicate,
          show 2 - d - a.length = 2 - (d + a.length) from by omega,
          List.append_assoc]
      rw [hstate, htkd]
    · rw [if_neg hlt]
      have hge : 2 - d ≤ a.length := by omega
      have hkge : 2 - d ≤ k := by omega
      have hatk : a.take (2 - d) = L.drop d := by
        rw [ha', List.take_take, show min (2 - d) k = 2 - d from by omega,
          List.take_left' hLd]
      dsimp only [sizeState]
      rw [hatk, List.take_append_drop]
      rw [List.drop_zero, hLdef, u16_roundtrip' p.length hlen]
      show receiveGo dec (f + 2) (dataState p (u16Code p.length) 0) (a.drop (2 - d)) = _
      have hdropa : a.drop (2 - d) = (p.drop 0).take (k - (2 - d)) := by
        rw [ha', List.drop_take, List.drop_left' hLd, List.drop_zero]
      have hdalen : (a.drop (2 - d)).length = a.length - (2 - d) := by
        rw [List.length_drop]
      rw [receive_data_step dec p (u16Code p.length) m f 0 (k - (2 - d)) (a.drop (2 - d))
        (by rw [u16Code]; rfl) hp hdropa hdec]
      rw [hdalen]
      by_cases hfin : d + a.length < 2 + p.length
      · rw [if_pos hfin, if_pos (by omega)]
        rw [midState, if_neg (by omega)]
        rw [show 0 + (a.length - (2 - d)) = d + a.length - 2 from by omega]
      · rw [if_neg hfin, if_neg (by omega)]

/-- One `receive` call from any mid-frame position `d` of the frame
`u16Code p.length ++ p`, the next `a` frame bytes being available. -/
theorem receive_mid_step {α : Type} (dec : List Nat → Except IOErrorKind (α × List Nat))
    (p : List Nat) (m : α) (f d k : Nat) (a : List Nat)
    (hp : 0 < p.length) (hlen : p.length < 65536) (hd : d < 2 + p.length)
    (ha : a = ((u16Code p.length ++ p).drop d).take k)
    (hdec : dec p = .ok (m, [])) :
    receiveGo dec (f + 3) (midState p d) a =
      if d + a.length < 2 + p.length
      then (.error .wouldBlock, midState p (d + a.length), [])
      else (.ok m, doneState p, []) := by
  have hL2 : (u16Code p.length).length = 2 := by rw [u16Code]; rfl
  by_cases h2 : d < 2
  · rw [midState, if_pos h2]
    exact receive_size_step dec p m f d k a hp hlen h2 ha hdec
  · rw [midState, if_neg h2]
    have hdk : a = (p.drop (d - 2)).take k := by
      rw [ha]
      congr 1
      conv_lhs => rw [show d = (u16Code p.length).length + (d - 2) from by rw [hL2]; omega]
      rw [List.drop_append]
    have h := receive_data_step dec p (u16Code p.length) m (f + 1) (d - 2) k a
      hL2 (by omega) hdk hdec
    rw [show f + 3 = (f + 1) + 2 from by omega, h]
    by_cases hfin : d + a.length < 2 + p.length
    · rw [if_pos (by omega), if_pos hfin, midState, if_neg (by omega),
        show d - 2 + a.length = d + a.length - 2 from by omega]
    · rw [if_neg (by omega), if_neg hfin]

theorem receiveGo_post_step {α : Type} (dec : List Nat → Except IOErrorKind (α × List Nat))
    (p : List Nat) (f : Nat) :
    receiveGo dec (f + 1) (postState p) [] = (.error .wouldBlock, postState p, []) := by
  rw [receiveGo_size dec f _ _ rfl]
  have hr : (p.take 2 ++ List.replicate (2 - p.length) 0 : List Nat) ≠ [] := by
    rw [← List.length_pos, List.length_append, List.length_take, List.length_replicate]
    omega
  rw [fill_buf_spec (postState p) [] (p.take 2 ++ List.replicate (2 - p.length) 0) []
    (by rw [List.nil_append]; rfl) rfl hr]
  rw [if_pos (show ([] : List Nat).length = 0 from rfl)]

/-- The `receive` call after a message was returned: the connection
resets its buffer for the next length prefix and reports `WouldBlock`. -/
theorem receive_done_step {α : Type} (dec : List Nat → Except IOErrorKind (α × List Nat))
    (p : List Nat) (hp : 0 < p.length) :
    receive dec (doneState p) [] = (.error .wouldBlock, postState p, []) := by
  rw [receive, show (6 : Nat) = 5 + 1 from rfl, receiveGo_parse dec 5 _ _ rfl,
    if_neg (by dsimp only [doneState]; omega)]
  show receiveGo dec (4 + 1) (postState p) [] = _
  exact receiveGo_post_step dec p 4

theorem receive_post {α : Type} (dec : List Nat → Except IOErrorKind (α × List Nat))
    (p : List Nat) :
    receive dec (postState p) [] = (.error .wouldBlock, postState p, []) := by
  rw [receive]
  exact receiveGo_post_step dec p 5

theorem oks_replicate_error {α : Type} (n : Nat) (e : IOErrorKind) :
    oks (List.replicate n (.error e) : List (Except IOErrorKind α)) = [] := by
  rw [oks, List.filterMap_replicate]

theorem deliverChunks_post {α : Type} (dec : List Nat → Except IOErrorKind (α × List Nat))
    (p : List Nat) (chunks : List (List Nat)) (hch : ∀ ch ∈ chunks, ch = []) :
    deliverChunks dec (postState p) [] chunks =
      (List.replicate chunks.length (.error .wouldBlock), postState p, []) := by
  induction chunks with
  | nil => rfl
  | cons ch rest ih =>
    have hch1 : ch = [] := hch ch (by simp)
    subst hch1
    simp only [deliverChunks, List.nil_append]
    rw [receive_post dec p, ih (fun c hc => hch c (by simp [hc]))]
    simp [List.replicate_succ]

theorem deliverChunks_done {α : Type} (dec : List Nat → Except IOErrorKind (α × List Nat))
    (p : List Nat) (hp : 0 < p.length) (chunks : List (List Nat))
    (hch : ∀ ch ∈ chunks, ch = []) :
    (deliverChunks dec (doneState p) [] chunks).1 =
      List.replicate chunks.length (.error .wouldBlock) ∧
    (deliverChunks dec (doneState p) [] chunks).2.2 = [] := by
  cases chunks with
  | nil => exact ⟨rfl, rfl⟩
  | cons ch rest =>
    have hch1 : ch = [] := hch ch (by simp)
    subst hch1
    simp only [deliverChunks, List.nil_append]
    rw [receive_done_step dec p hp, deliverChunks_post dec p rest
      (fun c hc => hch c (by simp [hc]))]
    simp [List.replicate_succ]

/-- Driving the connection from mid-frame position `d` with chunks whose
concatenation is exactly the rest of the frame: every call reports
`WouldBlock` except the one completing the frame, which returns the
decoded message; no socket bytes are left over. -/
theorem deliverChunks_mid {α : Type} (dec : List Nat → Except IOErrorKind (α × List Nat))
    (p : List Nat) (m : α) (hp : 0 < p.length) (hlen : p.length < 65536)
    (hdec : dec p = .ok (m, [])) :
    ∀ (chunks : List (List Nat)) (d : Nat), d < 2 + p.length →
      chunks.flatten = (u16Code p.length ++ p).drop d →
      oks (deliverChunks dec (midState p d) [] chunks).1 = [m] ∧
      (∀ x ∈ (deliverChunks dec (midState p d) [] chunks).1,
        x = .ok m ∨ x = .error .wouldBlock) ∧
      (deliverChunks dec (midState p d) [] chunks).2.2 = [] := by
  have hL2 : (u16Code p.length).length = 2 := by rw [u16Code]; rfl
  intro chunks
  induction chunks with
  | nil =>
    intro d hd hflat
    exfalso
    have hlen0 : ((u16Code p.length ++ p).drop d).length = 0 := by
      rw [← hflat]; rfl
    rw [List.length_drop, List.length_append, hL2] at hlen0
    omega
  | cons ch rest ih =>
    intro d hd hflat
    rw [List.flatten_cons] at hflat
    have hch : ch = ((u16Code p.length ++ p).drop d).take ch.length := by
      rw [← hflat, List.take_left]
    have hlens : ch.length + rest.flatten.length = 2 + p.length - d := by
      have := congrArg List.length hflat
      rw [List.length_append, List.length_drop, List.length_append, hL2] at this
      omega
    simp only [deliverChunks, List.nil_append]
    rw [receive, show (6 : Nat) = 3 + 3 from rfl,
      receive_mid_step dec p m 3 d ch.length ch hp hlen hd hch hdec]
    by_cases hfin : d + ch.length < 2 + p.length
    · rw [if_pos hfin]
      have hflat' : rest.flatten = (u16Code p.length ++ p).drop (d + ch.length) := by
        rw [← List.drop_drop, ← hflat, List.drop_left]
      obtain ⟨h1, h2, h3⟩ := ih (d + ch.length) (by omega) hflat'
      refine ⟨?_, ?_, h3⟩
      · simpa [oks, List.filterMap_cons] using h1
      · intro x hx
        rcases List.mem_cons.mp hx with hx1 | hx2
        · exact Or.inr hx1
        · exact h2 x hx2
    · rw [if_neg hfin]
      have hrestnil : ∀ c' ∈ rest, c' = [] := by
        rw [← List.flatten_eq_nil_iff]
        have : rest.flatten.length = 0 := by omega
        exact List.eq_nil_of_length_eq_zero this
      obtain ⟨h1, h2⟩ := deliverChunks_done dec p hp rest hrestnil
      refine ⟨?_, ?_, h2⟩
      · rw [h1]
        simp [oks, List.filterMap_cons, List.filterMap_replicate]
      · intro x hx
        rcases List.mem_cons.mp hx with hx1 | hx2
        · exact Or.inl hx1
        · rw [h1] at hx2
          exact Or.inr (List.eq_of_mem_replicate hx2)

/-- C3: a well-formed frame — 2-byte big-endian length prefix followed by
that many payload bytes `p` encoding one command (`dec p = ok (m, [])`) —
delivered to `Connection::receive` split into arbitrary chunks (including
1-byte chunks) across many calls yields exactly one decoded message `m`;
every other call reports a `WouldBlock` signal, and no bytes are left on
the socket.  The decoded message is the same for every chunking, in
particular equal to the one obtained when all bytes arrive in a single
read (the one-chunk instance of this statement). -/
theorem receive_chunked_one_message {α : Type}
    (dec : List Nat → Except IOErrorKind (α × List Nat)) (p : List Nat) (m : α)
    (chunks : List (List Nat))
    (hp : 0 < p.length) (hlen : p.length < 65536)
    (hdec : dec p = .ok (m, []))
    (hflat : chunks.flatten = u16Code p.length ++ p) :
    oks (deliverChunks dec Conn.new [] chunks).1 = [m] ∧
    (∀ x ∈ (deliverChunks dec Conn.new [] chunks).1,
      x = .ok m ∨ x = .error .wouldBlock) ∧
    (deliverChunks dec Conn.new [] chunks).2.2 = [] := by
  have hL2 : (u16Code p.length).length = 2 := by rw [u16Code]; rfl
  cases chunks with
  | nil =>
    exfalso
    have h0 := congrArg List.length hflat
    rw [List.length_append, hL2] at h0
    simp only [List.flatten_nil, List.length_nil] at h0
    omega
  | cons ch rest =>
    rw [List.flatten_cons] at hflat
    have hch : ch = ((u16Code p.length ++ p).drop 0).take ch.length := by
      rw [List.drop_zero, ← hflat, List.take_left]
    have hlens : ch.length + rest.flatten.length = 2 + p.length := by
      have h0 := congrArg List.length hflat
      rw [List.length_append, List.length_append, hL2] at h0
      omega
    simp only [deliverChunks, List.nil_append]
    have hnew : receive dec Conn.new ch = receiveGo dec (2 + 3) (midState p 0) ch := by
      rw [receive, show (6 : Nat) = 5 + 1 from rfl, receiveGo_parse dec 5 _ _ rfl,
        if_neg (by simp [Conn.new])]
      rfl
    rw [hnew, receive_mid_step dec p m 2 0 ch.length ch hp hlen (by omega) hch hdec]
    by_cases hfin : 0 + ch.length < 2 + p.length
    · rw [if_pos hfin]
      have hflat' : rest.flatten = (u16Code p.length ++ p).drop (0 + ch.length) := by
        rw [← List.drop_drop, List.drop_zero, ← hflat, List.drop_left]
      obtain ⟨h1, h2, h3⟩ := deliverChunks_mid dec p m hp hlen hdec rest
        (0 + ch.length) (by omega) hflat'
      refine ⟨?_, ?_, h3⟩
      · simpa [oks, List.filterMap_cons] using h1
      · intro x hx
        rcases List.mem_cons.mp hx with hx1 | hx2
        · exact Or.inr hx1
        · exact h2 x hx2
    · rw [if_neg hfin]
      have hrestnil : ∀ c' ∈ rest, c' = [] := by
        rw [← List.flatten_eq_nil_iff]
        exact List.eq_nil_of_length_eq_zero (by omega)
      obtain ⟨h1, h2⟩ := deliverChunks_done dec p hp rest hrestnil
      refine ⟨?_, ?_, h2⟩
      · rw [h1]
        simp [oks, List.filterMap_cons, List.filterMap_replicate]
      · intro x hx
        rcases List.mem_cons.mp hx with hx1 | hx2
        · exact Or.inl hx1
        · rw [h1] at hx2
          exact Or.inr (List.eq_of_mem_replicate hx2)

/-- C3 witness: a `Padding` frame delivered in four 1-byte chunks yields
exactly the one `Padding` message, with `WouldBlock` on the short reads. -/
theorem receive_chunked_one_message_witness :
    oks (deliverChunks ClientCommand.decode Conn.new [] [[0], [2], [0], [0]]).1 =
      [ClientCommand.padding] ∧
    (∀ x ∈ (deliverChunks ClientCommand.decode Conn.new [] [[0], [2], [0], [0]]).1,
      x = .ok ClientCommand.padding ∨ x = .error .wouldBlock) ∧
    (deliverChunks ClientCommand.decode Conn.new [] [[0], [2], [0], [0]]).2.2 = [] :=
  receive_chunked_one_message ClientCommand.decode [0, 0] .padding [[0], [2], [0], [0]]
    (by decide) (by decide) (by decide) (by decide)

/-- A full frame delivered in a single read: `receive` returns exactly the
payload decoder's verdict on the payload `p` — including a decoded message
that consumes only part of the payload, whose remainder stays buffered
behind the cursor. -/
theorem receive_single_frame {α : Type} (dec : List Nat → Except IOErrorKind (α × List Nat))
    (p : List Nat) (hp : 0 < p.length) (hlen : p.length < 65536) :
    receive dec Conn.new (u16Code p.length ++ p) =
      match dec p with
      | .ok (m, rest) => (.ok m, ⟨p, p.length - rest.length, p.length, .parse⟩, [])
      | .error e => (.error e, ⟨p, 0, p.length, .parse⟩, []) := by
  have hL2 : (u16Code p.length).length = 2 := by rw [u16Code]; rfl
  rw [receive, show (6 : Nat) = 5 + 1 from rfl, receiveGo_parse dec 5 _ _ rfl,
    if_neg (by simp [Conn.new])]
  show receiveGo dec (4 + 1) (sizeState (u16Code p.length) 0) (u16Code p.length ++ p) = _
  rw [receiveGo_size dec 4 _ _ rfl]
  rw [fill_buf_spec (sizeState (u16Code p.length) 0) [] (List.replicate 2 0)
    (u16Code p.length ++ p) (by rw [List.nil_append]; rfl) rfl (by simp)]
  rw [if_neg (by rw [List.length_append, hL2]; omega),
    if_neg (by rw [List.length_append, hL2, List.length_replicate]; omega)]
  simp only [List.length_replicate, List.nil_append, List.length_nil]
  rw [List.take_left' hL2, List.drop_left' hL2]
  simp only [sizeState]
  rw [List.drop_zero, u16_roundtrip' p.length hlen]
  dsimp only
  show receiveGo dec (3 + 1) (dataState p (u16Code p.length) 0) p = _
  rw [receiveGo_data dec 3 _ _ rfl]
  have hdb0 : (dataBuf0 (u16Code p.length) p.length).length = p.length := by
    rw [dataBuf0, List.length_append, List.length_take, List.length_replicate, hL2]
    omega
  rw [fill_buf_spec (dataState p (u16Code p.length) 0) [] (dataBuf0 (u16Code p.length) p.length)
    p (by rw [List.nil_append]; rfl) rfl (by rw [← List.length_pos, hdb0]; omega)]
  rw [if_neg (by omega), if_neg (by rw [hdb0]; omega)]
  rw [hdb0, List.take_length, List.drop_length]
  simp only [List.nil_append, List.length_nil, Nat.zero_add]
  rw [show (3 : Nat) = 2 + 1 from rfl, receiveGo_parse dec 2 _ _ rfl,
    if_pos (by simp only [dataState]; omega)]
  simp only [dataState]
  rw [List.drop_zero]

/-- C4 counterexample: a frame declaring length 4 whose payload holds one
2-byte `Padding` command plus two trailing bytes.  `receive` silently
accepts it (no error), and the next `receive` call decodes the leftover
payload bytes as a second message — the claim says such a frame is never
tolerated and leftovers are never interpreted as further messages. -/
theorem frame_trailing_bytes_tolerated :
    (receive ClientCommand.decode Conn.new [0, 4, 0, 0, 0, 0]).1 =
      .ok ClientCommand.padding ∧
    ((receive ClientCommand.decode Conn.new [0, 4, 0, 0, 0, 0]).2.1 =
      (⟨[0, 0, 0, 0], 2, 4, .parse⟩ : Conn)) ∧
    (receive ClientCommand.decode (⟨[0, 0, 0, 0], 2, 4, .parse⟩ : Conn) []).1 =
      .ok ClientCommand.padding := by
  decide

/-- C4 amended: the declared length prefix is the number of payload bytes
read before decoding; a payload with too few bytes for one command makes
`receive` return the decoder's (fatal, e.g. `UnexpectedEof`) error, but a
payload with trailing bytes beyond one decoded command is accepted, and
the leftover payload bytes are decoded as further messages by subsequent
`receive` calls. -/
theorem frame_length_mismatch_behaviour :
    (∀ (dec : List Nat → Except IOErrorKind (ClientCommand × List Nat)) (p : List Nat) e,
      0 < p.length → p.length < 65536 → dec p = .error e →
      (receive dec Conn.new (u16Code p.length ++ p)).1 = .error e) ∧
    (∀ (dec : List Nat → Except IOErrorKind (ClientCommand × List Nat)) (q rest : List Nat) m,
      0 < (q ++ rest).length → (q ++ rest).length < 65536 →
      dec (q ++ rest) = .ok (m, rest) →
      receive dec Conn.new (u16Code (q ++ rest).length ++ (q ++ rest)) =
        (.ok m, ⟨q ++ rest, q.length, (q ++ rest).length, .parse⟩, []) ∧
      (rest ≠ [] →
        (receive dec (⟨q ++ rest, q.length, (q ++ rest).length, .parse⟩ : Conn) []).1 =
          Except.map Prod.fst (dec rest))) := by
  constructor
  · intro dec p e hp hlen hdec
    rw [receive_single_frame dec p hp hlen, hdec]
  · intro dec q rest m hp hlen hdec
    constructor
    · rw [receive_single_frame dec (q ++ rest) hp hlen, hdec]
      dsimp only
      rw [show (q ++ rest).length - rest.length = q.length from by
        rw [List.length_append]; omega]
    · intro hrest
      rw [receive, show (6 : Nat) = 5 + 1 from rfl, receiveGo_parse dec 5 _ _ rfl,
        if_pos (by
          dsimp only
          rw [List.length_append]
          have := List.length_pos.mpr hrest
          omega)]
      dsimp only
      rw [List.drop_left]
      cases hdr : dec rest with
      | ok pr => obtain ⟨m2, r2⟩ := pr; rfl
      | error e => rfl

/-- C4 amended-theorem witness: a 1-byte payload makes `receive` fail with
the decoder's `UnexpectedEof`; a 4-byte payload holding `Padding` plus two
trailing bytes is accepted and the trailing bytes decode as a second
`Padding` on the next call. -/
theorem frame_length_mismatch_behaviour_witness :
    (receive ClientCommand.decode Conn.new (u16Code 1 ++ [0])).1 =
      .error .unexpectedEof ∧
    receive ClientCommand.decode Conn.new (u16Code 4 ++ ([0, 0] ++ [0, 0])) =
      (.ok ClientCommand.padding, ⟨[0, 0] ++ [0, 0], 2, 4, .parse⟩, []) ∧
    (receive ClientCommand.decode (⟨[0, 0] ++ [0, 0], 2, 4, .parse⟩ : Conn) []).1 =
      Except.map Prod.fst (ClientCommand.decode [0, 0]) :=
  ⟨frame_length_mismatch_behaviour.1 ClientCommand.decode [0] .unexpectedEof
      (by decide) (by decide) (by decide),
   (frame_length_mismatch_behaviour.2 ClientCommand.decode [0, 0] [0, 0] .padding
      (by decide) (by decide) (by decide)).1,
   (frame_length_mismatch_behaviour.2 ClientCommand.decode [0, 0] [0, 0] .padding
      (by decide) (by decide) (by decide)).2 (by decide)⟩

/-!
### Server and client-handle model (`src/server/src/server.rs`, `client.rs`)

The server-side `Client` wrapper owns a `Connection`; for the server-level
claims the connection's I/O is abstracted by two scripts listing the
outcomes of successive `Connection::receive` calls (`pollScript`) and
`Connection::send` calls (`sendScript`).  An exhausted script stands for a
socket with no data (`WouldBlock`) respectively error-free writes.
Successfully written messages accumulate in `delivered`, the observable
output towards that peer.  `TcpStream::flush` always succeeds and does
nothing, so `Client.flush` only performs the `connected` check.
-/

/-- Outcome of one `Connection::receive` call seen by `Client::poll`. -/
inductive PollOutcome where
  | msg (cmd : ClientCommand)
  | wouldBlock
  | fatal
deriving DecidableEq

/-- Outcome of one `Connection::send` call seen by `Client::send`. -/
inductive SendOutcome where
  | success
  | wouldBlock
  | fatal
deriving DecidableEq

/-- The server-side `Client` (peer handle). -/
structure Client where
  user_id : Nat
  connected : Bool
  pollScript : List PollOutcome
  sendScript : List SendOutcome
  delivered : List ServerCommand
deriving DecidableEq

/-- Embeds `Client::new`: wraps a fresh stream, `connected` starts `true`. -/
def Client.new (uid : Nat) (ps : List PollOutcome) (ss : List SendOutcome) : Client :=
  ⟨uid, true, ps, ss, []⟩

/-- Embeds `Client::disconnect`: early-returns when already disconnected,
otherwise logs, shuts the stream down and clears `connected`. -/
def Client.disconnect (c : Client) (_reason : Option IOErrorKind) : Client :=
  if !c.connected then c
  else { c with connected := false }

/-- Embeds `Client::poll`: no-op when disconnected; converts `WouldBlock` to
`none` and a fatal receive error into an implicit `disconnect`. -/
def Client.poll (c : Client) : Option ClientCommand × Client :=
  if !c.connected then (none, c)
  else
    match c.pollScript with
    | [] => (none, c)
    | o :: rest =>
      let c' := { c with pollScript := rest }
      match o with
      | .msg cmd => (some cmd, c')
      | .wouldBlock => (none, c')
      | .fatal => (none, c'.disconnect (some .unexpectedEof))

/-- Embeds `Client::send`: no-op when disconnected; `WouldBlock` is swallowed,
and a fatal write error disconnects. -/
def Client.send (c : Client) (m : ServerCommand) : Client :=
  if !c.connected then c
  else
    match c.sendScript with
    | [] => { c with delivered := c.delivered ++ [m] }
    | o :: rest =>
      let c' := { c with sendScript := rest }
      match o with
      | .success => { c' with delivered := c'.delivered ++ [m] }
      | .wouldBlock => c'
      | .fatal => c'.disconnect (some .unexpectedEof)

/-- Embeds `Client::flush`: no-op when disconnected; `TcpStream::flush` succeeds
without effect. -/
def Client.flush (c : Client) : Client :=
  if !c.connected then c else c

/-- Embeds `IdGen::get` on the stored `u16` counter (release-mode wrapping
addition): increments, returns the new value. -/
def idGen_get (g : Nat) : Nat × Nat :=
  ((g + 1) % 65536, (g + 1) % 65536)

/-- The `Server` state (`listener` is implicit: accepted connections are
an input to `update`). -/
structure Server where
  clients : List Client
  message_queue : List ServerCommand
  inactivity : Nat
  user_id_gen : Nat
  msg_id_gen : Nat
deriving DecidableEq

/-- Embeds `Server::poll_listener`: at most one pending connection is accepted
per tick (`incoming` carries the new peer's I/O scripts); `WouldBlock`
(no pending connection) leaves the server unchanged.  A fatal listener
error aborts the tick and is outside this model. -/
def Server.poll_listener (s : Server)
    (incoming : Option (List PollOutcome × List SendOutcome)) : Server :=
  match incoming with
  | some (ps, ss) =>
    let g := idGen_get s.user_id_gen
    { s with inactivity := 0,
             clients := s.clients ++ [Client.new g.1 ps ss],
             user_id_gen := g.2 }
  | none => s

/-- The translation in `Server::update`'s ingest `filter_map`: `Padding`
drops, `Connect` becomes `AddUser` with the peer's own id, `Message`
becomes `Message` with a fresh `msg_id` and the peer's own id. -/
def translate (uid : Nat) (cc : ClientCommand) (gen : Nat) :
    Option ServerCommand × Nat :=
  match cc with
  | .padding => (none, gen)
  | .connect name => (some (.addUser uid name), gen)
  | .message msg =>
    let g := idGen_get gen
    (some (.message g.1 uid msg), g.2)

/-- The ingest step: poll every client once, in order, translating each
decoded command and threading the message-id generator — the lazy
`extend(iter_mut().filter_map(..).filter_map(..))` chain evaluated
client by client. -/
def ingest : List Client → Nat → List Client × Nat × List ServerCommand
  | [], gen => ([], gen, [])
  | c :: cs, gen =>
    let pc := c.poll
    match pc.1 with
    | none =>
      let r := ingest cs gen
      (pc.2 :: r.1, r.2.1, r.2.2)
    | some cc =>
      let t := translate pc.2.user_id cc gen
      let r := ingest cs t.2
      (pc.2 :: r.1, r.2.1, t.1.toList ++ r.2.2)

/-- The inner loop of the broadcast step: send one message to every
client, then flush. -/
def send_all (clients : List Client) (m : ServerCommand) : List Client :=
  clients.map fun c => (c.send m).flush

/-- The broadcast step's outer loop over the queued messages. -/
def broadcastStep : List Client → List ServerCommand → List Client
  | clients, [] => clients
  | clients, m :: ms => broadcastStep (send_all clients m) ms

/-- Ingest phase of `Server::update`: extend the queue with the
translations of all polled commands. -/
def Server.ingestPhase (s : Server) : Server :=
  let r := ingest s.clients s.msg_id_gen
  { s with clients := r.1, msg_id_gen := r.2.1,
           message_queue := s.message_queue ++ r.2.2 }

/-- Broadcast phase of `Server::update`: send+flush every queued message
to every client (resetting `inactivity` per message), then clear the
queue. -/
def Server.broadcastPhase (s : Server) : Server :=
  { s with clients := broadcastStep s.clients s.message_queue,
           message_queue := [],
           inactivity := if s.message_queue.isEmpty then s.inactivity else 0 }

/-- Prune phase of `Server::update`: `retain` the connected clients,
pushing a `RemoveUser` onto the (just-cleared) queue for each removed
one, in order; reset `inactivity` if anyone was removed. -/
def Server.prunePhase (s : Server) : Server :=
  { s with clients := s.clients.filter (·.connected),
           message_queue := s.message_queue ++
             (s.clients.filter (fun c => !c.connected)).map
               (fun c => ServerCommand.removeUser c.user_id),
           inactivity :=
             if (s.clients.filter (·.connected)).length = s.clients.length
             then s.inactivity else 0 }

/-- One tick of `Server::update`: bump `inactivity`, accept, ingest,
broadcast, prune (timing instrumentation omitted). -/
def Server.update (s : Server)
    (incoming : Option (List PollOutcome × List SendOutcome)) : Server :=
  (((({ s with inactivity := s.inactivity + 1 }).poll_listener
      incoming).ingestPhase).broadcastPhase).prunePhase

/-! ### Broadcast, ingest and lifecycle lemmas -/

theorem send_flush_ok (c : Client) (m : ServerCommand) (hs : c.sendScript = []) :
    (c.send m).flush =
      if c.connected then { c with delivered := c.delivered ++ [m] } else c := by
  cases hc : c.connected <;>
    simp [Client.send, Client.flush, hs, hc]

theorem broadcastStep_map (queue : List ServerCommand) :
    ∀ clients : List Client, (∀ c ∈ clients, c.sendScript = []) →
      broadcastStep clients queue =
        clients.map (fun c =>
          if c.connected then { c with delivered := c.delivered ++ queue } else c) := by
  induction queue with
  | nil =>
    intro clients h
    rw [broadcastStep]
    conv_lhs => rw [← List.map_id clients]
    apply List.map_congr_left
    intro c _
    simp
  | cons m ms ih =>
    intro clients h
    rw [broadcastStep]
    have hsend : send_all clients m =
        clients.map (fun c =>
          if c.connected then { c with delivered := c.delivered ++ [m] } else c) := by
      apply List.map_congr_left
      intro c hc
      exact send_flush_ok c m (h c hc)
    rw [hsend, ih _ (by
      intro c hc
      rcases List.mem_map.mp hc with ⟨c0, hc0, hmap⟩
      subst hmap
      have := h c0 hc0
      by_cases hcon : c0.connected <;> simp [hcon, this])]
    rw [List.map_map]
    apply List.map_congr_left
    intro c _
    by_cases hcon : c.connected <;> simp [hcon, Function.comp]

/-- C6: in the broadcast step, every queued `ServerCommand` is sent and
flushed to every currently connected peer — the originator included, no
peer is exempted — each peer receiving the whole queue appended in its
original order; disconnected peers receive nothing, and the queue is
empty at the end of the step.  (Error-free writes: every client's send
script is exhausted/empty.) -/
theorem broadcast_delivers_queue_in_order :
    ∀ s : Server, (∀ c ∈ s.clients, c.sendScript = []) →
      (s.broadcastPhase).message_queue = [] ∧
      (s.broadcastPhase).clients =
        s.clients.map (fun c =>
          if c.connected then { c with delivered := c.delivered ++ s.message_queue }
          else c) :=
  fun s h => ⟨rfl, broadcastStep_map s.message_queue s.clients h⟩

/-- C6 witness: two connected peers (one being the originator of the
queued messages — the model does not distinguish it, no echo
suppression exists) and one disconnected peer. -/
theorem broadcast_delivers_queue_in_order_witness :
    (Server.broadcastPhase
        ⟨[Client.new 1 [] [], Client.new 2 [] [],
          { Client.new 3 [] [] with connected := false }],
         [ServerCommand.addUser 1 [97], ServerCommand.message 1 1 [104]],
         7, 3, 1⟩).message_queue = [] ∧
    (Server.broadcastPhase
        ⟨[Client.new 1 [] [], Client.new 2 [] [],
          { Client.new 3 [] [] with connected := false }],
         [ServerCommand.addUser 1 [97], ServerCommand.message 1 1 [104]],
         7, 3, 1⟩).clients =
      [Client.new 1 [] [], Client.new 2 [] [],
       { Client.new 3 [] [] with connected := false }].map (fun c =>
        if c.connected then
          { c with delivered := c.delivered ++
              [ServerCommand.addUser 1 [97], ServerCommand.message 1 1 [104]] }
        else c) :=
  broadcast_delivers_queue_in_order
    ⟨[Client.new 1 [] [], Client.new 2 [] [],
      { Client.new 3 [] [] with connected := false }],
     [ServerCommand.addUser 1 [97], ServerCommand.message 1 1 [104]],
     7, 3, 1⟩ (by decide)

theorem poll_user_id (c : Client) : (c.poll).2.user_id = c.user_id := by
  rw [Client.poll]
  cases hc : c.connected
  · rfl
  · cases c.pollScript with
    | nil => rfl
    | cons o rest => cases o <;> simp [Client.disconnect]

/-- C7: the ingest step translates each command polled from a peer into
zero-or-one queued `ServerCommand`: nothing polled contributes nothing;
`Padding` is dropped; `Connect name` becomes `AddUser` carrying that same
peer's own `user_id`; `Message msg` becomes `Message` carrying a freshly
generated `msg_id` and that same peer's own `user_id`. -/
theorem ingest_translates_commands :
    (∀ (c : Client) (cs : List Client) (gen : Nat), (c.poll).1 = none →
      ingest (c :: cs) gen =
        ((c.poll).2 :: (ingest cs gen).1, (ingest cs gen).2.1, (ingest cs gen).2.2)) ∧
    (∀ (c : Client) (cs : List Client) (gen : Nat), (c.poll).1 = some .padding →
      ingest (c :: cs) gen =
        ((c.poll).2 :: (ingest cs gen).1, (ingest cs gen).2.1, (ingest cs gen).2.2)) ∧
    (∀ (c : Client) (cs : List Client) (gen : Nat) (name : List Nat),
      (c.poll).1 = some (.connect name) →
      ingest (c :: cs) gen =
        ((c.poll).2 :: (ingest cs gen).1, (ingest cs gen).2.1,
         ServerCommand.addUser c.user_id name :: (ingest cs gen).2.2)) ∧
    (∀ (c : Client) (cs : List Client) (gen : Nat) (msg : List Nat),
      (c.poll).1 = some (.message msg) →
      ingest (c :: cs) gen =
        ((c.poll).2 :: (ingest cs ((gen + 1) % 65536)).1,
         (ingest cs ((gen + 1) % 65536)).2.1,
         ServerCommand.message ((gen + 1) % 65536) c.user_id msg ::
           (ingest cs ((gen + 1) % 65536)).2.2)) := by
  refine ⟨?_, ?_, ?_, ?_⟩
  · intro c cs gen h
    rw [ingest, h]
  · intro c cs gen h
    rw [ingest, h]
    simp [translate]
  · intro c cs gen name h
    rw [ingest, h]
    simp [translate, poll_user_id]
  · intro c cs gen msg h
    rw [ingest, h]
    simp [translate, idGen_get, poll_user_id]

/-- C7 witness: one peer polling each kind of command, with a waiting
peer behind it. -/
theorem ingest_translates_commands_witness :
    ingest [⟨4, true, [], [], []⟩] 9 = ([⟨4, true, [], [], []⟩], 9, []) ∧
    ingest [⟨4, true, [PollOutcome.msg .padding], [], []⟩] 9 =
      ([⟨4, true, [], [], []⟩], 9, []) ∧
    ingest [⟨4, true, [PollOutcome.msg (.connect [97])], [], []⟩] 9 =
      ([⟨4, true, [], [], []⟩], 9, [ServerCommand.addUser 4 [97]]) ∧
    ingest [⟨4, true, [PollOutcome.msg (.message [104])], [], []⟩] 9 =
      ([⟨4, true, [], [], []⟩], 9 + 1, [ServerCommand.message 10 4 [104]]) := by
  refine ⟨?_, ?_, ?_, ?_⟩
  · rw [ingest_translates_commands.1 _ [] 9 (by decide)]; decide
  · rw [ingest_translates_commands.2.1 _ [] 9 (by decide)]; decide
  · rw [ingest_translates_commands.2.2.1 _ [] 9 [97] (by decide)]; decide
  · rw [ingest_translates_commands.2.2.2 _ [] 9 [104] (by decide)]; decide

/-! ### Identity generation (C9) and peer lifecycle (C10) -/

/-- The first `n` values handed out by an `IdGen` whose counter is `g`. -/
def idsFrom (g : Nat) : Nat → List Nat
  | 0 => []
  | n + 1 => (idGen_get g).1 :: idsFrom (idGen_get g).2 n

/-- Embeds `Server::new`: no clients, empty queue, both counters at 0. -/
def serverNew : Server := ⟨[], [], 0, 0, 0⟩

/-- The server after `n` ticks that each accept exactly one pending
connection (idle otherwise). -/
def acceptN : Nat → Server
  | 0 => serverNew
  | n + 1 => (acceptN n).update (some ([], []))

theorem idsFrom_eq_range' (n : Nat) :
    ∀ g : Nat, g + n < 65536 → idsFrom g n = List.range' (g + 1) n := by
  induction n with
  | zero => intro g _; rfl
  | succ n ih =>
    intro g h
    rw [idsFrom, idGen_get]
    dsimp only
    rw [Nat.mod_eq_of_lt (by omega), ih (g + 1) (by omega), List.range'_succ]

theorem ingest_idle (gen : Nat) :
    ∀ cs : List Client, (∀ c ∈ cs, c.pollScript = []) →
      ingest cs gen = (cs, gen, []) := by
  intro cs
  induction cs with
  | nil => intro _; rfl
  | cons c cs ih =>
    intro h
    have hpoll : c.poll = (none, c) := by
      rw [Client.poll, h c (by simp)]
      cases c.connected <;> rfl
    rw [ingest, hpoll]
    dsimp only
    rw [ih (fun x hx => h x (by simp [hx]))]

theorem acceptN_spec (n : Nat) (h : n < 65536) :
    acceptN n = ⟨(List.range' 1 n).map (fun uid => Client.new uid [] []), [], 0, n, 0⟩ := by
  induction n with
  | zero => rfl
  | succ n ih =>
    rw [acceptN, ih (by omega)]
    rw [Server.update, Server.poll_listener]
    dsimp only
    rw [idGen_get]
    dsimp only
    rw [Nat.mod_eq_of_lt (by omega)]
    have hidle : ∀ c ∈ (List.range' 1 n).map (fun uid => Client.new uid [] []) ++
        [Client.new (n + 1) [] []], c.pollScript = [] := by
      intro c hc
      rcases List.mem_append.mp hc with hc1 | hc1
      · rcases List.mem_map.mp hc1 with ⟨uid, _, hmap⟩
        subst hmap; rfl
      · rw [List.mem_singleton.mp hc1]; rfl
    rw [Server.ingestPhase]
    dsimp only
    rw [ingest_idle _ _ hidle]
    dsimp only
    rw [Server.broadcastPhase, Server.prunePhase]
    dsimp only
    simp only [List.nil_append, List.append_nil, ite_self]
    rw [broadcastStep]
    have hconn : ∀ c ∈ (List.range' 1 n).map (fun uid => Client.new uid [] []) ++
        [Client.new (n + 1) [] []], c.connected = true := by
      intro c hc
      rcases List.mem_append.mp hc with hc1 | hc1
      · rcases List.mem_map.mp hc1 with ⟨uid, _, hmap⟩
        subst hmap; rfl
      · rw [List.mem_singleton.mp hc1]; rfl
    rw [List.filter_eq_self.mpr hconn,
      List.filter_eq_nil_iff.mpr (by
        intro c hc
        rw [hconn c hc]
        simp)]
    simp only [List.map_nil, List.append_nil, ite_self]
    rw [List.range'_1_concat, List.map_append, Nat.add_comm 1 n]
    rfl

/-- C9: the first `n < 65536` identities minted by an `IdGen` (used for
both `user_id`s and `msg_id`s) are exactly `1, 2, …, n`: pairwise
distinct, strictly increasing, starting at 1, never 0 — and the server
after `n` accepted connections has assigned exactly these `user_id`s in
order. -/
theorem idgen_ids_unique_increasing (n : Nat) (h : n < 65536) :
    idsFrom 0 n = List.range' 1 n ∧
    (idsFrom 0 n).Nodup ∧
    List.Chain' (· < ·) (idsFrom 0 n) ∧
    (0 < n → (idsFrom 0 n).head? = some 1) ∧
    0 ∉ idsFrom 0 n ∧
    (acceptN n).clients.map (·.user_id) = List.range' 1 n := by
  have hr : idsFrom 0 n = List.range' 1 n := idsFrom_eq_range' n 0 (by omega)
  refine ⟨hr, ?_, ?_, ?_, ?_, ?_⟩
  · rw [hr]; exact List.nodup_range' 1 n
  · rw [hr]; exact (List.pairwise_lt_range' 1 n).chain'
  · intro hn
    rw [hr]
    cases n with
    | zero => omega
    | succ m => rw [List.range'_succ]; rfl
  · rw [hr, List.mem_range']
    rintro ⟨i, _, hi⟩
    omega
  · rw [acceptN_spec n h]
    dsimp only
    rw [List.map_map]
    conv_rhs => rw [← List.map_id (List.range' 1 n)]
    apply List.map_congr_left
    intro uid _
    rfl

/-- C9 witness: after three accepts the ids are `[1, 2, 3]`. -/
theorem idgen_ids_unique_increasing_witness :
    idsFrom 0 3 = List.range' 1 3 ∧
    (idsFrom 0 3).Nodup ∧
    List.Chain' (· < ·) (idsFrom 0 3) ∧
    (0 < 3 → (idsFrom 0 3).head? = some 1) ∧
    0 ∉ idsFrom 0 3 ∧
    (acceptN 3).clients.map (·.user_id) = List.range' 1 3 :=
  idgen_ids_unique_increasing 3 (by decide)

/-- C10: a peer's `connected` flag starts `true`; `disconnect` makes it
`false` and is idempotent — a second `disconnect` is observably identical
to one; once disconnected, `poll`, `send`, `flush` and `disconnect` are
all no-ops returning the peer unchanged (and `poll` returns `None`); a
fatal error during `poll` performs exactly one implicit `disconnect`
while `poll` returns `None`. -/
theorem client_lifecycle :
    (∀ (uid : Nat) ps ss, (Client.new uid ps ss).connected = true) ∧
    (∀ (c : Client) r, (c.disconnect r).connected = false) ∧
    (∀ (c : Client) r1 r2, (c.disconnect r1).disconnect r2 = c.disconnect r1) ∧
    (∀ c : Client, c.connected = false →
      c.poll = (none, c) ∧ (∀ m, c.send m = c) ∧ c.flush = c ∧
      ∀ r, c.disconnect r = c) ∧
    (∀ (c : Client) rest, c.connected = true → c.pollScript = .fatal :: rest →
      c.poll = (none, Client.disconnect { c with pollScript := rest }
        (some .unexpectedEof)) ∧
      ((c.poll).2).connected = false) := by
  refine ⟨?_, ?_, ?_, ?_, ?_⟩
  · intro uid ps ss; rfl
  · intro c r
    rw [Client.disconnect]
    cases hc : c.connected <;> simp [hc]
  · intro c r1 r2
    rw [Client.disconnect, Client.disconnect]
    cases hc : c.connected <;> simp [hc, Client.disconnect]
  · intro c hc
    refine ⟨?_, ?_, ?_, ?_⟩
    · rw [Client.poll, hc]; rfl
    · intro m; rw [Client.send, hc]; rfl
    · rw [Client.flush, hc]; rfl
    · intro r; rw [Client.disconnect, hc]; rfl
  · intro c rest hc hps
    constructor
    · rw [Client.poll, hc, hps]
      rfl
    · rw [Client.poll, hc, hps]
      dsimp only
      rw [Client.disconnect]
      simp [hc]

/-- C10 witness: a connected peer with a fatal poll outcome, and a
disconnected peer on which every operation is a no-op. -/
theorem client_lifecycle_witness :
    (Client.new 5 [] []).connected = true ∧
    ((⟨5, false, [], [], []⟩ : Client).poll = (none, ⟨5, false, [], [], []⟩) ∧
      (∀ m, (⟨5, false, [], [], []⟩ : Client).send m = ⟨5, false, [], [], []⟩) ∧
      (⟨5, false, [], [], []⟩ : Client).flush = ⟨5, false, [], [], []⟩ ∧
      ∀ r, (⟨5, false, [], [], []⟩ : Client).disconnect r = ⟨5, false, [], [], []⟩) ∧
    ((⟨5, true, [PollOutcome.fatal], [], []⟩ : Client).poll =
      (none, Client.disconnect ⟨5, true, [], [], []⟩ (some .unexpectedEof)) ∧
      (((⟨5, true, [PollOutcome.fatal], [], []⟩ : Client).poll).2).connected = false) ∧
    ((⟨5, true, [], [], []⟩ : Client).disconnect none).disconnect (some .wouldBlock) =
      (⟨5, true, [], [], []⟩ : Client).disconnect none :=
  ⟨client_lifecycle.1 5 [] [],
   client_lifecycle.2.2.2.1 _ (by decide),
   client_lifecycle.2.2.2.2 _ [] (by decide) (by decide),
   client_lifecycle.2.2.1 _ none (some .wouldBlock)⟩

/-! ### Disconnect notification timing (C8) -/

theorem ingest_idle_append (gen : Nat) (ys : List Client) :
    ∀ xs : List Client, (∀ c ∈ xs, c.pollScript = []) →
      ingest (xs ++ ys) gen =
        (xs ++ (ingest ys gen).1, (ingest ys gen).2.1, (ingest ys gen).2.2) := by
  intro xs
  induction xs with
  | nil => intro _; rfl
  | cons c xs ih =>
    intro h
    have hpoll : c.poll = (none, c) := by
      rw [Client.poll, h c (by simp)]
      cases c.connected <;> rfl
    rw [List.cons_append, ingest, hpoll]
    try dsimp only
    rw [ih (fun x hx => h x (by simp [hx]))]
    rfl

theorem ingest_append (xs : List Client) :
    ∀ (ys : List Client) (g : Nat), ingest (xs ++ ys) g =
      ((ingest xs g).1 ++ (ingest ys (ingest xs g).2.1).1,
       (ingest ys (ingest xs g).2.1).2.1,
       (ingest xs g).2.2 ++ (ingest ys (ingest xs g).2.1).2.2) := by
  induction xs with
  | nil => intro ys g; rfl
  | cons c xs ih =>
    intro ys g
    rw [List.cons_append]
    cases hpc : (c.poll).1 with
    | none =>
      simp only [ingest, hpc]
      rw [ih ys g]
      rfl
    | some cc =>
      simp only [ingest, hpc]
      rw [ih ys (translate (c.poll).2.user_id cc g).2]
      simp [List.append_assoc]

/-- C8: when peer `B`'s connection turns out fatal during tick N (its
poll disconnects it), tick N's broadcast queue is unaffected by B's
departure: whatever the surrounding peers do, the queue equals the
pre-existing queue extended by exactly the commands the other peers
would have contributed with B absent.  With the surrounding peers
otherwise idle the queue is exactly `Q0`, delivered to
the still-connected peers only, `B` receiving nothing; `RemoveUser B` is
enqueued by tick N's prune step (after the queue was flushed and
cleared), so it is delivered during tick N+1's broadcast step to the
peers still connected then — never during tick N itself. -/
theorem removeUser_lands_next_tick
    (pre post : List Client) (B : Client) (Q0 : List ServerCommand)
    (inact ugen mgen : Nat)
    (hBconn : B.connected = true) (hBpoll : B.pollScript = [PollOutcome.fatal])
    (hBsend : B.sendScript = [])
    (hothers : ∀ c ∈ pre ++ post,
      c.connected = true ∧ c.pollScript = [] ∧ c.sendScript = []) :
    (∀ (pre' post' : List Client) (Q0' : List ServerCommand) (inact' ugen' mgen' : Nat),
      ((Server.poll_listener
          ⟨pre' ++ B :: post', Q0', inact', ugen', mgen'⟩ none).ingestPhase).message_queue
        = Q0' ++ (ingest (pre' ++ post') mgen').2.2) ∧
    ((Server.poll_listener
        ⟨pre ++ B :: post, Q0, inact + 1, ugen, mgen⟩ none).ingestPhase).message_queue
      = Q0 ∧
    (((Server.poll_listener
        ⟨pre ++ B :: post, Q0, inact + 1, ugen, mgen⟩ none).ingestPhase).broadcastPhase).clients
      = pre.map (fun c => { c with delivered := c.delivered ++ Q0 }) ++
          ({ B with pollScript := [], connected := false } ::
            post.map (fun c => { c with delivered := c.delivered ++ Q0 })) ∧
    (Server.update ⟨pre ++ B :: post, Q0, inact, ugen, mgen⟩ none).clients
      = pre.map (fun c => { c with delivered := c.delivered ++ Q0 }) ++
          post.map (fun c => { c with delivered := c.delivered ++ Q0 }) ∧
    (Server.update ⟨pre ++ B :: post, Q0, inact, ugen, mgen⟩ none).message_queue
      = [ServerCommand.removeUser B.user_id] ∧
    (Server.update (Server.update ⟨pre ++ B :: post, Q0, inact, ugen, mgen⟩ none)
        none).clients
      = pre.map (fun c =>
          { c with delivered := c.delivered ++ Q0 ++ [ServerCommand.removeUser B.user_id] }) ++
        post.map (fun c =>
          { c with delivered := c.delivered ++ Q0 ++ [ServerCommand.removeUser B.user_id] }) ∧
    (Server.update (Server.update ⟨pre ++ B :: post, Q0, inact, ugen, mgen⟩ none)
        none).message_queue = [] := by
  have hpre : ∀ c ∈ pre, c.connected = true ∧ c.pollScript = [] ∧ c.sendScript = [] :=
    fun c hc => hothers c (List.mem_append.mpr (Or.inl hc))
  have hpost : ∀ c ∈ post, c.connected = true ∧ c.pollScript = [] ∧ c.sendScript = [] :=
    fun c hc => hothers c (List.mem_append.mpr (Or.inr hc))
  have hpollB : B.poll = (none, { B with pollScript := [], connected := false }) := by
    rw [Client.poll, hBconn, hBpoll]
    dsimp only
    rw [Client.disconnect]
    simp [hBconn]
  have hBpost : ingest (B :: post) mgen =
      ({ B with pollScript := [], connected := false } :: post, mgen, []) := by
    rw [ingest, hpollB]
    dsimp only
    rw [ingest_idle mgen post (fun c hc => (hpost c hc).2.1)]
  have hingest : ingest (pre ++ B :: post) mgen =
      (pre ++ ({ B with pollScript := [], connected := false } :: post), mgen, []) := by
    rw [ingest_idle_append mgen (B :: post) pre (fun c hc => (hpre c hc).2.1), hBpost]
  have hscripts : ∀ c ∈ pre ++ ({ B with pollScript := [], connected := false } :: post),
      c.sendScript = [] := by
    intro c hc
    rcases List.mem_append.mp hc with hc1 | hc1
    · exact (hpre c hc1).2.2
    · rcases List.mem_cons.mp hc1 with hc2 | hc2
      · rw [hc2]; exact hBsend
      · exact (hpost c hc2).2.2
  have hbc : broadcastStep
      (pre ++ ({ B with pollScript := [], connected := false } :: post)) Q0 =
      pre.map (fun c => { c with delivered := c.delivered ++ Q0 }) ++
        ({ B with pollScript := [], connected := false } ::
          post.map (fun c => { c with delivered := c.delivered ++ Q0 })) := by
    rw [broadcastStep_map Q0 _ hscripts, List.map_append, List.map_cons]
    congr 1
    · exact List.map_congr_left (fun c hc => if_pos (hpre c hc).1)
    · congr 1
      exact List.map_congr_left (fun c hc => if_pos (hpost c hc).1)
  have hfil1 : (pre.map (fun c => { c with delivered := c.delivered ++ Q0 })).filter
      (·.connected) = pre.map (fun c => { c with delivered := c.delivered ++ Q0 }) :=
    List.filter_eq_self.mpr (by
      intro a ha
      rcases List.mem_map.mp ha with ⟨c, hc, hmap⟩
      subst hmap
      exact (hpre c hc).1)
  have hfil2 : (post.map (fun c => { c with delivered := c.delivered ++ Q0 })).filter
      (·.connected) = post.map (fun c => { c with delivered := c.delivered ++ Q0 }) :=
    List.filter_eq_self.mpr (by
      intro a ha
      rcases List.mem_map.mp ha with ⟨c, hc, hmap⟩
      subst hmap
      exact (hpost c hc).1)
  have hnfil1 : (pre.map (fun c => { c with delivered := c.delivered ++ Q0 })).filter
      (fun c => !c.connected) = [] :=
    List.filter_eq_nil_iff.mpr (by
      intro a ha
      rcases List.mem_map.mp ha with ⟨c, hc, hmap⟩
      subst hmap
      simp [(hpre c hc).1])
  have hnfil2 : (post.map (fun c => { c with delivered := c.delivered ++ Q0 })).filter
      (fun c => !c.connected) = [] :=
    List.filter_eq_nil_iff.mpr (by
      intro a ha
      rcases List.mem_map.mp ha with ⟨c, hc, hmap⟩
      subst hmap
      simp [(hpost c hc).1])
  have hfilC : List.filter (·.connected)
      (pre.map (fun (c : Client) => { c with delivered := c.delivered ++ Q0 }) ++
        ({ B with pollScript := [], connected := false } ::
          post.map (fun (c : Client) => { c with delivered := c.delivered ++ Q0 }))) =
      pre.map (fun (c : Client) => { c with delivered := c.delivered ++ Q0 }) ++
        post.map (fun (c : Client) => { c with delivered := c.delivered ++ Q0 }) := by
    rw [List.filter_append, List.filter_cons, hfil1, hfil2]
    rfl
  have hfilD : List.filter (fun (c : Client) => !c.connected)
      (pre.map (fun (c : Client) => { c with delivered := c.delivered ++ Q0 }) ++
        ({ B with pollScript := [], connected := false } ::
          post.map (fun (c : Client) => { c with delivered := c.delivered ++ Q0 }))) =
      [{ B with pollScript := [], connected := false }] := by
    rw [List.filter_append, List.filter_cons, hnfil1, hnfil2]
    rfl
  have hs1 : Server.update ⟨pre ++ B :: post, Q0, inact, ugen, mgen⟩ none =
      ⟨pre.map (fun c => { c with delivered := c.delivered ++ Q0 }) ++
        post.map (fun c => { c with delivered := c.delivered ++ Q0 }),
       [ServerCommand.removeUser B.user_id], 0, ugen, mgen⟩ := by
    rw [Server.update]
    simp only [Server.poll_listener, Server.ingestPhase, Server.broadcastPhase,
      Server.prunePhase]
    try dsimp only
    rw [hingest]
    try dsimp only
    rw [List.append_nil, hbc, hfilC, hfilD]
    rw [Server.mk.injEq]
    refine ⟨rfl, by simp, ?_, rfl, rfl⟩
    rw [if_neg (by
      simp only [List.length_append, List.length_map, List.length_cons]
      omega)]
  have hscripts2 : ∀ c ∈
      pre.map (fun c => { c with delivered := c.delivered ++ Q0 }) ++
        post.map (fun c => { c with delivered := c.delivered ++ Q0 }),
      c.sendScript = [] := by
    intro c hc
    rcases List.mem_append.mp hc with hc1 | hc1
    · rcases List.mem_map.mp hc1 with ⟨c0, hc0, hmap⟩
      subst hmap
      exact (hpre c0 hc0).2.2
    · rcases List.mem_map.mp hc1 with ⟨c0, hc0, hmap⟩
      subst hmap
      exact (hpost c0 hc0).2.2
  have hidle2 : ∀ c ∈
      pre.map (fun c => { c with delivered := c.delivered ++ Q0 }) ++
        post.map (fun c => { c with delivered := c.delivered ++ Q0 }),
      c.pollScript = [] := by
    intro c hc
    rcases List.mem_append.mp hc with hc1 | hc1
    · rcases List.mem_map.mp hc1 with ⟨c0, hc0, hmap⟩
      subst hmap
      exact (hpre c0 hc0).2.1
    · rcases List.mem_map.mp hc1 with ⟨c0, hc0, hmap⟩
      subst hmap
      exact (hpost c0 hc0).2.1
  have hs2 : Server.update
      ⟨pre.map (fun c => { c with delivered := c.delivered ++ Q0 }) ++
        post.map (fun c => { c with delivered := c.delivered ++ Q0 }),
       [ServerCommand.removeUser B.user_id], 0, ugen, mgen⟩ none =
      ⟨pre.map (fun c =>
          { c with delivered := c.delivered ++ Q0 ++ [ServerCommand.removeUser B.user_id] }) ++
        post.map (fun c =>
          { c with delivered := c.delivered ++ Q0 ++ [ServerCommand.removeUser B.user_id] }),
       [], 0, ugen, mgen⟩ := by
    rw [Server.update]
    simp only [Server.poll_listener, Server.ingestPhase, Server.broadcastPhase,
      Server.prunePhase]
    try dsimp only
    rw [ingest_idle _ _ hidle2]
    try dsimp only
    rw [List.append_nil, broadcastStep_map _ _ hscripts2]
    rw [List.map_append, List.map_map, List.map_map]
    have hcomp1 : ∀ c ∈ pre,
        ((fun c => if c.connected then
            { c with delivered := c.delivered ++ [ServerCommand.removeUser B.user_id] }
          else c) ∘ (fun c => { c with delivered := c.delivered ++ Q0 })) c =
        { c with delivered := c.delivered ++ Q0 ++ [ServerCommand.removeUser B.user_id] } := by
      intro c hc
      simp only [Function.comp]
      rw [if_pos (hpre c hc).1]
    have hcomp2 : ∀ c ∈ post,
        ((fun c => if c.connected then
            { c with delivered := c.delivered ++ [ServerCommand.removeUser B.user_id] }
          else c) ∘ (fun c => { c with delivered := c.delivered ++ Q0 })) c =
        { c with delivered := c.delivered ++ Q0 ++ [ServerCommand.removeUser B.user_id] } := by
      intro c hc
      simp only [Function.comp]
      rw [if_pos (hpost c hc).1]
    rw [List.map_congr_left hcomp1, List.map_congr_left hcomp2]
    have hfilA : List.filter (·.connected)
        (pre.map (fun (c : Client) =>
          { c with delivered := c.delivered ++ Q0 ++ [ServerCommand.removeUser B.user_id] }) ++
        post.map (fun (c : Client) =>
          { c with delivered := c.delivered ++ Q0 ++ [ServerCommand.removeUser B.user_id] })) =
        pre.map (fun (c : Client) =>
          { c with delivered := c.delivered ++ Q0 ++ [ServerCommand.removeUser B.user_id] }) ++
        post.map (fun (c : Client) =>
          { c with delivered := c.delivered ++ Q0 ++ [ServerCommand.removeUser B.user_id] }) :=
      List.filter_eq_self.mpr (by
        intro a ha
        rcases List.mem_append.mp ha with ha1 | ha1
        · rcases List.mem_map.mp ha1 with ⟨c0, hc0, hmap⟩
          subst hmap
          exact (hpre c0 hc0).1
        · rcases List.mem_map.mp ha1 with ⟨c0, hc0, hmap⟩
          subst hmap
          exact (hpost c0 hc0).1)
    have hfilB : List.filter (fun (c : Client) => !c.connected)
        (pre.map (fun (c : Client) =>
          { c with delivered := c.delivered ++ Q0 ++ [ServerCommand.removeUser B.user_id] }) ++
        post.map (fun (c : Client) =>
          { c with delivered := c.delivered ++ Q0 ++ [ServerCommand.removeUser B.user_id] })) = [] :=
      List.filter_eq_nil_iff.mpr (by
        intro a ha
        rcases List.mem_append.mp ha with ha1 | ha1
        · rcases List.mem_map.mp ha1 with ⟨c0, hc0, hmap⟩
          subst hmap
          simp [(hpre c0 hc0).1]
        · rcases List.mem_map.mp ha1 with ⟨c0, hc0, hmap⟩
          subst hmap
          simp [(hpost c0 hc0).1])
    rw [hfilA, hfilB]
    simp
  refine ⟨?_, ?_, ?_, ?_, ?_, ?_, ?_⟩
  · intro pre' post' Q0' inact' ugen' mgen'
    simp only [Server.poll_listener, Server.ingestPhase]
    try dsimp only
    rw [ingest_append pre' (B :: post') mgen', ingest_append pre' post' mgen']
    simp only [ingest, hpollB]
  · simp only [Server.poll_listener, Server.ingestPhase]
    try dsimp only
    rw [hingest]
    simp
  · simp only [Server.poll_listener, Server.ingestPhase, Server.broadcastPhase]
    try dsimp only
    rw [hingest]
    try dsimp only
    rw [List.append_nil, hbc]
  · rw [hs1]
  · rw [hs1]
  · rw [hs1, hs2]
  · rw [hs1, hs2]

/-- C8 witness: one peer before B, one after, a nonempty pre-existing
queue; B's removal notice is enqueued in the first tick and delivered in
the second. -/
theorem removeUser_lands_next_tick_witness :
    (Server.update ⟨[Client.new 1 [] []] ++ Client.new 2 [PollOutcome.fatal] [] ::
        [Client.new 3 [] []], [ServerCommand.padding], 9, 3, 0⟩ none).message_queue =
      [ServerCommand.removeUser 2] ∧
    (Server.update (Server.update ⟨[Client.new 1 [] []] ++
        Client.new 2 [PollOutcome.fatal] [] :: [Client.new 3 [] []],
        [ServerCommand.padding], 9, 3, 0⟩ none) none).clients =
      [⟨1, true, [], [], [ServerCommand.padding, ServerCommand.removeUser 2]⟩,
       ⟨3, true, [], [], [ServerCommand.padding, ServerCommand.removeUser 2]⟩] ∧
    (Server.update (Server.update ⟨[Client.new 1 [] []] ++
        Client.new 2 [PollOutcome.fatal] [] :: [Client.new 3 [] []],
        [ServerCommand.padding], 9, 3, 0⟩ none) none).message_queue = [] := by
  have h := removeUser_lands_next_tick [Client.new 1 [] []] [Client.new 3 [] []]
    (Client.new 2 [PollOutcome.fatal] []) [ServerCommand.padding] 9 3 0
    (by decide) (by decide) (by decide) (by decide)
  exact ⟨h.2.2.2.2.1, h.2.2.2.2.2.1, h.2.2.2.2.2.2⟩

end Tcpchat
